import Mathlib

/-!
Verification development for the hierarchical circuit instantiation and
placement orchestration engine (Magic/utils.py of the IIC-RALF repository).

The engine's own code (instantiate_circuit, instantiate_devices,
generate_cell, add_cells, place_circuit, place_circuit_hierachical) is
embedded shallowly below.  Its collaborators (the Magic tool session, the
Cell class, the MagicParser and the topology sorters of SchematicCapture)
are not part of the analysed sources; they are modelled from the
specification, and each such definition says so in its doc comment.

Conventions of the embedding:
  - the artifact storage directory is a finite association list from file
    names (without the .mag extension) to parse results;
  - the external tool session is an oracle (a function) describing which
    artifact each generation command produces;
  - observable side effects (chdir, file deletions through the session,
    filesystem tree removals, command batches, printed messages) are
    recorded in an event trace;
  - Python exceptions become explicit error values, and the unbounded
    recursion of add_cells is observed through a fuel parameter.
-/

namespace IICRALF

/-- Layer names extracted from a parsed artifact file. -/
abbrev Layers := List String

/-- Modelled from the spec: the result of parsing one artifact file.
MagicParser (not under src/) either yields the layer set of the file or
fails on a malformed file; a parse failure surfaces as an error that is
not the artifact-not-found error. -/
inductive ParseRes where
  | ok (layers : Layers)
  | bad (msg : String)
deriving DecidableEq

/-- Contents of the flat artifact storage directory: one entry per
artifact file, keyed by device name (the name part of name.mag). -/
abbrev FileStore := List (String × ParseRes)

/-- Look up the artifact file for a device name in the store. -/
def lookupFile (s : FileStore) (n : String) : Option ParseRes :=
  (s.find? (fun e => e.1 == n)).map (fun e => e.2)

/-- Replace the artifact for a name, or add it if absent. -/
def upsert (s : FileStore) (n : String) (v : ParseRes) : FileStore :=
  match s with
  | [] => [(n, v)]
  | e :: rest => if e.1 == n then (n, v) :: rest else e :: upsert rest n v

/-- Modelled from the spec: the Cell class (Magic/Cell.py, not under
src/).  A cell owns a name, the set of physical layers it occupies, a
list of file-system provenance paths (the most recently added one is the
current binding), and placement state: an absolute center position, a
rotation (counted in quarter turns), and the positions of its internal
child cells. -/
structure Cell where
  name : String
  layers : Layers
  paths : List String := []
  center : Int × Int := (0, 0)
  rotation : Int := 0
  childPositions : List (Int × Int) := []
deriving DecidableEq

/-- Modelled from the spec: Cell.add_path appends a provenance path
(rebindPath of the Cell Cache contract); geometry is untouched. -/
def Cell.add_path (c : Cell) (p : String) : Cell :=
  { c with paths := c.paths ++ [p] }

/-- Componentwise sum of two integer points. -/
def ptAdd (p q : Int × Int) : Int × Int := (p.1 + q.1, p.2 + q.2)

/-- Componentwise difference of two integer points. -/
def ptSub (p q : Int × Int) : Int × Int := (p.1 - q.1, p.2 - q.2)

/-- One counterclockwise quarter turn about the origin. -/
def qturn (p : Int × Int) : Int × Int := (-(p.2), p.1)

/-- Rotation by an integer number of quarter turns about the origin. -/
def qturns (n : Int) (p : Int × Int) : Int × Int :=
  match (n % 4).toNat with
  | 0 => p
  | 1 => qturn p
  | 2 => qturn (qturn p)
  | _ => qturn (qturn (qturn p))

/-- Modelled from the spec: Cell.move_center translates the cell so that
its center lands on the given point; all internal child-cell positions
are shifted by the same delta. -/
def Cell.move_center (c : Cell) (p : Int × Int) : Cell :=
  let d := ptSub p c.center
  { c with center := p, childPositions := c.childPositions.map (fun q => ptAdd q d) }

/-- Modelled from the spec: Cell.rotate_center rotates the cell by the
given number of quarter turns about its center, adding the turns to the
stored rotation and rotating every internal child-cell position. -/
def Cell.rotate_center (c : Cell) (n : Int) : Cell :=
  { c with rotation := c.rotation + n,
           childPositions := c.childPositions.map
             (fun q => ptAdd c.center (qturns n (ptSub q c.center))) }

/-- Lower-left corner of the bounding box of the internal child-cell
positions; the origin when there are none. -/
def boundMin (c : Cell) : Int × Int :=
  match c.childPositions with
  | [] => (0, 0)
  | q :: qs => qs.foldl (fun m r => (min m.1 r.1, min m.2 r.2)) q

/-- Modelled from the spec: the source's underscore-named move-cells-to-bound
step shifts all internal child-cell positions so that the bounding box of
the block is aligned at the origin. -/
def Cell.move_cells_to_bound (c : Cell) : Cell :=
  let m := boundMin c
  { c with childPositions := c.childPositions.map (fun q => ptSub q m) }

/-- The composite normalization sequence exactly as place_circuit_hierachical
performs it on the snapshot macro cell (utils.py lines 283 to 285):
center to the origin, rotate by the negative of the current rotation,
then shift the child cells to the bound. -/
def normalizeMacro (mc : Cell) : Cell :=
  let m1 := mc.move_center (0, 0)
  let m2 := m1.rotate_center (-(m1.rotation))
  m2.move_cells_to_bound

/-- A primitive device: a name and an optionally bound cell. -/
structure PrimDev where
  name : String
  cell : Option Cell
deriving DecidableEq

/-- Modelled from the spec: the macro device handle (SubDevice) through
which a composite circuit is embedded in its parent; it carries the
instance name and the macro cell once bound. -/
structure SubDev where
  name : String
  cell : Option Cell
deriving DecidableEq

/-- The device map of one circuit, in insertion order.  A sub entry
embeds a whole sub-circuit: its circuit name, its macro device handle
and its own device tree. -/
inductive DTree where
  | nil : DTree
  | prim (d : PrimDev) (rest : DTree) : DTree
  | sub (sname : String) (sdev : SubDev) (body : DTree) (rest : DTree) : DTree
deriving DecidableEq

/-- A circuit of the hierarchy: its name, its own macro device handle
when it is a SubCircuit (none for a plain root circuit), and its device
map. -/
structure Ckt where
  name : String
  subDev : Option SubDev
  devs : DTree
deriving DecidableEq

/-- The sub-circuits directly embedded in a device tree. -/
def subCkts : DTree → List Ckt
  | .nil => []
  | .prim _ r => subCkts r
  | .sub sn sd body r => { name := sn, subDev := some sd, devs := body } :: subCkts r

/-- The sub-circuits directly embedded in a circuit. -/
def directSubs (c : Ckt) : List Ckt := subCkts c.devs

/-- Names of the primitive (non-SubDevice) devices of one device tree,
in device-map order. -/
def primNamesT : DTree → List String
  | .nil => []
  | .prim d r => d.name :: primNamesT r
  | .sub _ _ _ r => primNamesT r

/-- Modelled from the spec: the depth-indexed traversal underlying the
topology sorters of SchematicCapture.utils (not under src/).  The spec
fixes layer(root) = 0 and layer(child) = layer(parent) + 1 for the
top-down sorter; every reachable occurrence is recorded at its
discovered depth, without deduplication. -/
def topoDevs (t : Int) : DTree → List (Int × Ckt)
  | .nil => []
  | .prim _ r => topoDevs t r
  | .sub sn sd body r =>
      ((t, ({ name := sn, subDev := some sd, devs := body } : Ckt)) :: topoDevs (t + 1) body)
        ++ topoDevs t r

/-- Topology entries of a circuit starting at a given layer. -/
def topoOf (c : Ckt) (t : Int) : List (Int × Ckt) :=
  (t, c) :: topoDevs (t + 1) c.devs

/-- Modelled from the spec: get_top_down_topology of SchematicCapture.utils
(not under src/): every circuit reachable from the root, paired with its
depth layer (root at layer 0). -/
def get_top_down_topology (c : Ckt) : List (Int × Ckt) := topoOf c 0

/-- Modelled from the spec: get_bottom_up_topology of SchematicCapture.utils
(not under src/).  The spec gives two characterizations of the bottom-up
layering; they disagree, and we follow the consumption contract it
states for the Placement Composer (descending sort places leaves before
the composites that embed them), which holds of the same depth-indexed
layers as the top-down sorter (an embedded circuit is one layer deeper
than its embedder). -/
def get_bottom_up_topology (c : Ckt) : List (Int × Ckt) := topoOf c 0

/-- Stable insertion into an ascending-by-key list: the new element goes
after every element whose key is less than or equal to its key. -/
def insAscBy (key : α → Int) (a : α) : List α → List α
  | [] => [a]
  | b :: bs => if key b ≤ key a then b :: insAscBy key a bs else a :: b :: bs

/-- Stable ascending sort by an integer key, as Python list.sort with a
key function. -/
def sortAscBy (key : α → Int) (l : List α) : List α :=
  l.foldl (fun acc x => insAscBy key x acc) []

/-- Stable insertion into a descending-by-key list: the new element goes
after every element whose key is greater than or equal to its key. -/
def insDescBy (key : α → Int) (a : α) : List α → List α
  | [] => [a]
  | b :: bs => if key a ≤ key b then b :: insDescBy key a bs else a :: b :: bs

/-- Stable descending sort by an integer key, as Python list.sort with a
key function and reverse set. -/
def sortDescBy (key : α → Int) (l : List α) : List α :=
  l.foldl (fun acc x => insDescBy key x acc) []

/-- Errors raised by the embedded operations: the artifact-not-found
error (Python FileNotFoundError) or any other failure. -/
inductive MErr where
  | fileNotFound (msg : String)
  | other (msg : String)
deriving DecidableEq

/-- Result of a cell-cache lookup. -/
inductive CellRes where
  | ok (c : Cell)
  | err (e : MErr)
deriving DecidableEq

/-- Whether a lookup result is the artifact-not-found error. -/
def CellRes.isFNF : CellRes → Bool
  | .err (.fileNotFound _) => true
  | _ => false

/-- Observable side effects of the engine, in order of occurrence. -/
inductive Ev where
  | chdir (p : String)
  | sessionDeleteMags
  | fsRemoveTree (p : String)
  | genDevices (circuitName : String)
  | placeCmds (topName : String)
  | msg (s : String)
deriving DecidableEq

/-- Embedding of generate_cell (utils.py lines 135 to 168), the Cell
Cache lookup: fail with the artifact-not-found error when no name.mag
file exists at the path, otherwise parse the file, build a Cell from the
parsed layer set and bind it to the resolved absolute storage path.  The
rp parameter models os.path.realpath; the store argument is the contents
of the directory at the path.  The function takes no tool session and
returns no store: it performs no generation. -/
def generate_cell (rp : String → String) (store : FileStore) (name path : String) : CellRes :=
  match lookupFile store name with
  | none => .err (.fileNotFound ("Magic-view of cell " ++ name ++ " not found in " ++ path))
  | some (.ok layers) =>
      let cell : Cell := { name := name, layers := layers }
      .ok (cell.add_path (rp path))
  | some (.bad m) => .err (.other m)

/-- Rebinding pass of instantiate_devices (utils.py lines 129 to 133):
every device of the circuit's own device map that already owns a Cell
gets the resolved absolute storage path appended to that cell; devices
without a cell are untouched, and the bodies of embedded sub-circuits
are not entered (their devices belong to other topology entries). -/
def rebindTree (ap : String) : DTree → DTree
  | .nil => .nil
  | .prim d r => .prim { d with cell := d.cell.map (fun c => c.add_path ap) } (rebindTree ap r)
  | .sub sn sd body r =>
      .sub sn { sd with cell := sd.cell.map (fun c => c.add_path ap) } body (rebindTree ap r)

/-- Effect of executing the device generation command batch for a list
of primitive device names: the tool oracle says which artifact each
command produces (none when the tool fails to produce one); produced
artifacts overwrite existing files of the same name. -/
def genInto (toolGen : String → Option ParseRes) : List String → FileStore → FileStore
  | [], s => s
  | n :: ns, s =>
      genInto toolGen ns (match toolGen n with
        | some v => upsert s n v
        | none => s)

/-- Embedding of instantiate_devices (utils.py lines 77 to 133), the
Device Instantiator for one circuit: obtain the generation commands,
remove the whole directory through the filesystem when the delete-path
flag is set, execute the command batch through the session (the store
gains the artifacts the tool produces for the circuit's primitive
devices), then rebind the provenance path of every already-bound cell of
the circuit to the resolved absolute storage path. -/
def instantiate_devices (toolGen : String → Option ParseRes) (rp : String → String)
    (path : String) (c : Ckt) (del_path : Bool) (store : FileStore) :
    Ckt × FileStore × List Ev :=
  let pre : List Ev := if del_path then [.fsRemoveTree path] else []
  let store1 := if del_path then [] else store
  let store2 := genInto toolGen (primNamesT c.devs) store1
  ({ c with devs := rebindTree (rp path) c.devs }, store2, pre ++ [.genDevices c.name])

/-- Embedding of instantiate_circuit (utils.py lines 40 to 75), the
Hierarchy Instantiator: compute the top-down topology, sort it ascending
by layer, move the session into the absolute directory and delete every
existing mag file there through the session (the one global pre-clean:
the incoming store is discarded), then run the Device Instantiator once
per topology entry with the delete-path flag false.  The per-entry cell
rebinding of instantiate_devices is not propagated back into the tree
here; it does not affect any observed store or trace. -/
def instantiate_circuit (toolGen : String → Option ParseRes) (rp : String → String)
    (path : String) (circ : Ckt) (_store : FileStore) : FileStore × List Ev :=
  let topology := sortAscBy (fun e => e.1) (get_top_down_topology circ)
  let init : FileStore × List Ev := ([], [.chdir path, .sessionDeleteMags])
  topology.foldl
    (fun acc e =>
      let r := instantiate_devices toolGen rp path e.2 false acc.1
      (r.2.1, acc.2 ++ r.2.2))
    init

/-- Result of binding the devices of one circuit: the updated device
tree, the error that aborted the loop if any, and the sequence of cache
lookups performed (device names, in order). -/
structure TreeBind where
  tree : DTree
  err : Option MErr
  lookups : List String
deriving DecidableEq

/-- The per-circuit device loop of add_cells (utils.py lines 184 to
188): for every device of the circuit's own map that is not a SubDevice,
look its cell up in the cache and attach it; a raised error aborts the
loop, leaving the remaining devices untouched (earlier attachments
persist); SubDevice entries are skipped without any lookup. -/
def bindTree (rp : String → String) (store : FileStore) (path : String) : DTree → TreeBind
  | .nil => ⟨.nil, none, []⟩
  | .prim d rest =>
      match generate_cell rp store d.name path with
      | .ok cell =>
          let r := bindTree rp store path rest
          ⟨.prim { d with cell := some cell } r.tree, r.err, d.name :: r.lookups⟩
      | .err e => ⟨.prim d rest, some e, [d.name]⟩
  | .sub sn sd body rest =>
      let r := bindTree rp store path rest
      ⟨.sub sn sd body r.tree, r.err, r.lookups⟩

/-- Result of one bind pass over the sorted topology: the entries with
their circuits updated as far as the pass got, the aborting error if
any, and all cache lookups performed. -/
structure PassRes where
  entries : List (Int × Ckt)
  err : Option MErr
  lookups : List String
deriving DecidableEq

/-- The entry loop of one add_cells bind pass (utils.py lines 183 to
188): process the sorted topology entries in order; an error raised
inside an entry aborts the pass, leaving later entries untouched. -/
def bindEntries (rp : String → String) (store : FileStore) (path : String) :
    List (Int × Ckt) → PassRes
  | [] => ⟨[], none, []⟩
  | (t, c) :: rest =>
      let rb := bindTree rp store path c.devs
      match rb.err with
      | none =>
          let rr := bindEntries rp store path rest
          ⟨(t, { c with devs := rb.tree }) :: rr.entries, rr.err, rb.lookups ++ rr.lookups⟩
      | some e => ⟨(t, { c with devs := rb.tree }) :: rest, some e, rb.lookups⟩

/-- Termination mode of add_cells: normal return, process termination
with an exit code (sys.exit), or still recursing when the observation
fuel ran out (the source recursion has no bound of its own). -/
inductive ACOut where
  | ok
  | exit (code : Nat)
  | spin
deriving DecidableEq

/-- Observed run of add_cells: how it ended, how many bind passes
(lookup rounds) ran, how many times the Hierarchy Instantiator was
invoked, and the event trace. -/
structure ACRes where
  out : ACOut
  rounds : Nat
  heals : Nat
  trace : List Ev
deriving DecidableEq

/-- Message printed by the bare except handler of add_cells. -/
def msgAddFailed (circName : String) : String :=
  "Adding cells to " ++ circName ++ " failed."

/-- First message printed when a Magic view is missing. -/
def msgNotFound : String := "Magic-view cannot be found."

/-- Second message printed when a Magic view is missing. -/
def msgRegen (path : String) : String := "Generating new view under " ++ path ++ "."

/-- Embedding of add_cells (utils.py lines 170 to 198), the Cell Binder:
compute the top-down topology, sort ascending, and bind every
non-SubDevice device; when the pass raises the artifact-not-found error,
print two messages, invoke the Hierarchy Instantiator and recursively
call add_cells again on the regenerated store; when it raises any other
error, print a report and exit with status 1.  The fuel argument bounds
the observation of the source's unbounded recursion (a run that is still
recursing when the fuel ends is reported as spin); the circuit argument
is passed unchanged to the recursive call, matching the source, whose
in-place cell attachments do not alter device names or kinds and hence
cannot change the control flow modelled here. -/
def add_cells (toolGen : String → Option ParseRes) (rp : String → String)
    (path : String) : Nat → Ckt → FileStore → ACRes
  | 0, _, _ => { out := .spin, rounds := 0, heals := 0, trace := [] }
  | Nat.succ n, circ, store =>
      let stopo := sortAscBy (fun e => e.1) (get_top_down_topology circ)
      let pr := bindEntries rp store path stopo
      match pr.err with
      | none => { out := .ok, rounds := 1, heals := 0, trace := [] }
      | some (.fileNotFound _) =>
          let ic := instantiate_circuit toolGen rp path circ store
          let r := add_cells toolGen rp path n circ ic.1
          { out := r.out, rounds := r.rounds + 1, heals := r.heals + 1,
            trace := [.msg msgNotFound, .msg (msgRegen path)] ++ ic.2 ++ r.trace }
      | some (.other _) =>
          { out := .exit 1, rounds := 1, heals := 0,
            trace := [.msg (msgAddFailed circ.name)] }

/-- State of the placement directory and the accumulated event trace. -/
structure PlaceSt where
  dir : List String
  trace : List Ev
deriving DecidableEq

/-- Embedding of place_circuit (utils.py lines 201 to 248): generate the
placement commands for the named cell, move the session into the
absolute directory, delete every existing mag file there through the
session, then execute the placement batch, which writes the placed top
cell under the given name (the write is modelled from the spec: the
block is placed into the target directory under its own name).  The
circuit, debug and clean-path parameters of the source are never read by
its body, and neither are they here. -/
def place_circuit (name : String) (_circ : Ckt) (path : String) (_clean_path : Bool)
    (st : PlaceSt) : PlaceSt :=
  let st1 : PlaceSt := { dir := [], trace := st.trace ++ [.chdir path, .sessionDeleteMags] }
  { dir := st1.dir ++ [name ++ ".mag"], trace := st1.trace ++ [.placeCmds name] }

/-- One iteration of the place_circuit_hierachical loop (utils.py lines
276 to 291) applied to a topology entry.  A SubCircuit entry is
processed on an independent snapshot (copy.deepcopy): the snapshot's
macro cell is normalized and the snapshot is placed under the macro
device's name with the clean-path flag false; afterwards the original
entry's macro cell - and nothing else of the original - has the
resolved placement path appended.  The source would raise on a
SubCircuit whose macro device owns no cell; that degenerate entry is
modelled as a no-op.  A plain circuit entry is placed directly under the
top name. -/
def hierStepFull (rp : String → String) (topName path : String) (c : Ckt)
    (st : PlaceSt) : Ckt × PlaceSt :=
  match c.subDev with
  | some sd =>
      match sd.cell with
      | some mc =>
          let snapshot : Ckt := { c with subDev := some { sd with cell := some (normalizeMacro mc) } }
          let st2 := place_circuit sd.name snapshot path false st
          ({ c with subDev := some { sd with cell := some (mc.add_path (rp path)) } }, st2)
      | none => (c, st)
  | none => (c, place_circuit topName c path false st)

/-- Embedding of place_circuit_hierachical (utils.py lines 251 to 291):
remove the placement directory through the filesystem when the
clean-path flag is set, compute the bottom-up topology, sort it
descending by layer, and run the per-entry step over the entries in that
order, every placement call receiving the clean-path flag false. -/
def place_circuit_hierachical (rp : String → String) (topName path : String)
    (circuit : Ckt) (clean_path : Bool) (st0 : PlaceSt) : PlaceSt :=
  let st1 : PlaceSt :=
    if clean_path then { dir := [], trace := st0.trace ++ [.fsRemoveTree path] } else st0
  let topology := sortDescBy (fun e => e.1) (get_bottom_up_topology circuit)
  topology.foldl (fun st e => (hierStepFull rp topName path e.2 st).2) st1

/-- Definition following the spec's words for the Cell Binder success
path, used to compare with the code path: every primitive device of the
tree carries the cell the cache lookup returns, SubDevice entries and
sub-circuit bodies untouched. -/
def bindTreeOk (rp : String → String) (store : FileStore) (path : String) : DTree → DTree
  | .nil => .nil
  | .prim d r =>
      .prim (match generate_cell rp store d.name path with
             | .ok cell => { d with cell := some cell }
             | .err _ => d) (bindTreeOk rp store path r)
  | .sub sn sd body r => .sub sn sd body (bindTreeOk rp store path r)

/-- Whether every primitive device of a tree owns a cell. -/
def allPrimsBound : DTree → Bool
  | .nil => true
  | .prim d r => d.cell.isSome && allPrimsBound r
  | .sub _ _ _ r => allPrimsBound r

/-- Whether an event is the deletion of the mag files through the tool
session. -/
def isSessionClean : Ev → Bool
  | .sessionDeleteMags => true
  | _ => false

/-- Whether an event is a filesystem tree removal. -/
def isFsRemove : Ev → Bool
  | .fsRemoveTree _ => true
  | _ => false

theorem mem_insAscBy (key : α → Int) (a x : α) :
    ∀ l : List α, x ∈ insAscBy key a l ↔ x = a ∨ x ∈ l
  | [] => by simp [insAscBy]
  | b :: bs => by
    rw [insAscBy]
    by_cases hb : key b ≤ key a
    · simp only [if_pos hb, List.mem_cons, mem_insAscBy key a x bs]
      tauto
    · simp only [if_neg hb, List.mem_cons]

theorem mem_insDescBy (key : α → Int) (a x : α) :
    ∀ l : List α, x ∈ insDescBy key a l ↔ x = a ∨ x ∈ l
  | [] => by simp [insDescBy]
  | b :: bs => by
    rw [insDescBy]
    by_cases hb : key a ≤ key b
    · simp only [if_pos hb, List.mem_cons, mem_insDescBy key a x bs]
      tauto
    · simp only [if_neg hb, List.mem_cons]

theorem pairwise_insAscBy (key : α → Int) (a : α) :
    ∀ {l : List α}, List.Pairwise (fun x y => key x ≤ key y) l →
      List.Pairwise (fun x y => key x ≤ key y) (insAscBy key a l)
  | [], _ => by simp [insAscBy]
  | b :: bs, h => by
    rw [insAscBy]
    rcases List.pairwise_cons.mp h with ⟨hball, htail⟩
    by_cases hb : key b ≤ key a
    · simp only [if_pos hb]
      refine List.pairwise_cons.mpr ⟨?_, pairwise_insAscBy key a htail⟩
      intro x hx
      rcases (mem_insAscBy key a x bs).mp hx with rfl | hxl
      · exact hb
      · exact hball x hxl
    · simp only [if_neg hb]
      have hab : key a ≤ key b := le_of_lt (lt_of_not_le hb)
      refine List.pairwise_cons.mpr ⟨?_, h⟩
      intro x hx
      rcases List.mem_cons.mp hx with rfl | hxl
      · exact hab
      · exact le_trans hab (hball x hxl)

theorem pairwise_insDescBy (key : α → Int) (a : α) :
    ∀ {l : List α}, List.Pairwise (fun x y => key y ≤ key x) l →
      List.Pairwise (fun x y => key y ≤ key x) (insDescBy key a l)
  | [], _ => by simp [insDescBy]
  | b :: bs, h => by
    rw [insDescBy]
    rcases List.pairwise_cons.mp h with ⟨hball, htail⟩
    by_cases hb : key a ≤ key b
    · simp only [if_pos hb]
      refine List.pairwise_cons.mpr ⟨?_, pairwise_insDescBy key a htail⟩
      intro x hx
      rcases (mem_insDescBy key a x bs).mp hx with rfl | hxl
      · exact hb
      · exact hball x hxl
    · simp only [if_neg hb]
      have hab : key b ≤ key a := le_of_lt (lt_of_not_le hb)
      refine List.pairwise_cons.mpr ⟨?_, h⟩
      intro x hx
      rcases List.mem_cons.mp hx with rfl | hxl
      · exact hab
      · exact le_trans (hball x hxl) hab

theorem pairwise_foldl_insAsc (key : α → Int) :
    ∀ (l acc : List α), List.Pairwise (fun x y => key x ≤ key y) acc →
      List.Pairwise (fun x y => key x ≤ key y)
        (l.foldl (fun acc x => insAscBy key x acc) acc)
  | [], _, h => h
  | x :: xs, acc, h => pairwise_foldl_insAsc key xs (insAscBy key x acc) (pairwise_insAscBy key x h)

theorem pairwise_sortAscBy (key : α → Int) (l : List α) :
    List.Pairwise (fun x y => key x ≤ key y) (sortAscBy key l) :=
  pairwise_foldl_insAsc key l [] (by simp)

theorem pairwise_foldl_insDesc (key : α → Int) :
    ∀ (l acc : List α), List.Pairwise (fun x y => key y ≤ key x) acc →
      List.Pairwise (fun x y => key y ≤ key x)
        (l.foldl (fun acc x => insDescBy key x acc) acc)
  | [], _, h => h
  | x :: xs, acc, h => pairwise_foldl_insDesc key xs (insDescBy key x acc) (pairwise_insDescBy key x h)

theorem pairwise_sortDescBy (key : α → Int) (l : List α) :
    List.Pairwise (fun x y => key y ≤ key x) (sortDescBy key l) :=
  pairwise_foldl_insDesc key l [] (by simp)

theorem mem_foldl_insDesc (key : α → Int) :
    ∀ (l acc : List α) (x : α),
      x ∈ l.foldl (fun acc a => insDescBy key a acc) acc ↔ x ∈ acc ∨ x ∈ l
  | [], acc, x => by simp
  | a :: as, acc, x => by
    rw [List.foldl_cons, mem_foldl_insDesc key as _ x, mem_insDescBy]
    simp only [List.mem_cons]
    tauto

theorem mem_sortDescBy (key : α → Int) (l : List α) (x : α) :
    x ∈ sortDescBy key l ↔ x ∈ l := by
  rw [sortDescBy, mem_foldl_insDesc]
  simp

theorem topoDevs_layer_le :
    ∀ (dt : DTree) (t : Int) (e : Int × Ckt), e ∈ topoDevs t dt → t ≤ e.1
  | .nil, t, e => by simp [topoDevs]
  | .prim d r, t, e => by
    rw [topoDevs]
    exact topoDevs_layer_le r t e
  | .sub sn sd body r, t, e => by
    simp only [topoDevs, List.mem_append, List.mem_cons]
    rintro ((rfl | hb) | hr)
    · simp
    · have := topoDevs_layer_le body (t + 1) e hb
      omega
    · exact topoDevs_layer_le r t e hr

theorem subCkts_mem_topoDevs :
    ∀ (dt : DTree) (t : Int) (s : Ckt), s ∈ subCkts dt → (t, s) ∈ topoDevs t dt
  | .nil, t, s => by simp [subCkts]
  | .prim d r, t, s => by
    rw [subCkts, topoDevs]
    exact subCkts_mem_topoDevs r t s
  | .sub sn sd body r, t, s => by
    simp only [subCkts, topoDevs, List.mem_cons, List.mem_append]
    rintro (rfl | h)
    · exact Or.inl (Or.inl rfl)
    · exact Or.inr (subCkts_mem_topoDevs r t s h)

theorem topoDevs_subs_mem :
    ∀ (dt : DTree) (t0 t : Int) (c : Ckt), (t, c) ∈ topoDevs t0 dt →
      ∀ s ∈ directSubs c, (t + 1, s) ∈ topoDevs t0 dt
  | .nil, t0, t, c => by simp [topoDevs]
  | .prim d r, t0, t, c => by
    rw [topoDevs]
    exact topoDevs_subs_mem r t0 t c
  | .sub sn sd body r, t0, t, c => by
    simp only [topoDevs, List.mem_append, List.mem_cons]
    rintro ((heq | hb) | hr) s hs
    · rw [Prod.mk.injEq] at heq
      obtain ⟨h1, h2⟩ := heq
      have hs2 : s ∈ subCkts body := by rw [h2] at hs; exact hs
      rw [h1]
      exact Or.inl (Or.inr (subCkts_mem_topoDevs body (t0 + 1) s hs2))
    · exact Or.inl (Or.inr (topoDevs_subs_mem body (t0 + 1) t c hb s hs))
    · exact Or.inr (topoDevs_subs_mem r t0 t c hr s hs)

theorem topoOf_subs_mem (root : Ckt) (t : Int) (c : Ckt)
    (h : (t, c) ∈ topoOf root 0) (s : Ckt) (hs : s ∈ directSubs c) :
    (t + 1, s) ∈ topoOf root 0 := by
  rcases List.mem_cons.mp h with heq | htail
  · rw [Prod.mk.injEq] at heq
    obtain ⟨h1, h2⟩ := heq
    have hs2 : s ∈ subCkts root.devs := by rw [h2] at hs; exact hs
    rw [h1]
    exact List.mem_cons_of_mem _ (subCkts_mem_topoDevs root.devs (0 + 1) s hs2)
  · exact List.mem_cons_of_mem _ (topoDevs_subs_mem root.devs (0 + 1) t c htail s hs)

theorem listMapEqSelf : ∀ (l : List α) (f : α → α), (∀ a ∈ l, f a = a) → l.map f = l
  | [], _, _ => rfl
  | a :: as, f, h => by
    rw [List.map_cons, h a (List.mem_cons_self a as),
        listMapEqSelf as f (fun b hb => h b (List.mem_cons_of_mem a hb))]

theorem bindTree_ok (rp : String → String) (store : FileStore) (path : String) :
    ∀ dt : DTree, (bindTree rp store path dt).err = none →
      (bindTree rp store path dt).tree = bindTreeOk rp store path dt ∧
      (bindTree rp store path dt).lookups = primNamesT dt ∧
      allPrimsBound (bindTree rp store path dt).tree = true
  | .nil, _ => by simp [bindTree, bindTreeOk, allPrimsBound, primNamesT]
  | .prim d rest, h => by
    cases hgc : generate_cell rp store d.name path with
    | ok cell =>
      have h2 : (bindTree rp store path rest).err = none := by
        simp only [bindTree, hgc] at h
        exact h
      obtain ⟨ht, hl, hb⟩ := bindTree_ok rp store path rest h2
      rw [ht] at hb
      simp [bindTree, bindTreeOk, allPrimsBound, primNamesT, hgc, ht, hl, hb]
    | err e =>
      exfalso
      simp [bindTree, hgc] at h
  | .sub sn sd body rest, h => by
    have h2 : (bindTree rp store path rest).err = none := by
      simp only [bindTree] at h
      exact h
    obtain ⟨ht, hl, hb⟩ := bindTree_ok rp store path rest h2
    rw [ht] at hb
    simp [bindTree, bindTreeOk, allPrimsBound, primNamesT, ht, hl, hb]

theorem bindEntries_ok (rp : String → String) (store : FileStore) (path : String) :
    ∀ l : List (Int × Ckt), (bindEntries rp store path l).err = none →
      (bindEntries rp store path l).entries
          = l.map (fun e => (e.1, { e.2 with devs := bindTreeOk rp store path e.2.devs })) ∧
      (bindEntries rp store path l).lookups = l.flatMap (fun e => primNamesT e.2.devs) ∧
      ∀ e ∈ (bindEntries rp store path l).entries, allPrimsBound e.2.devs = true
  | [], _ => by simp [bindEntries]
  | (t, c) :: rest, h => by
    cases hrb : (bindTree rp store path c.devs).err with
    | none =>
      have h2 : (bindEntries rp store path rest).err = none := by
        simp only [bindEntries, hrb] at h
        exact h
      obtain ⟨he, hl, hb⟩ := bindEntries_ok rp store path rest h2
      obtain ⟨ht1, hl1, hb1⟩ := bindTree_ok rp store path c.devs hrb
      refine ⟨?_, ?_, ?_⟩
      · simp [bindEntries, hrb, he, ht1]
      · simp [bindEntries, hrb, hl, hl1]
      · intro e he2
        simp only [bindEntries, hrb] at he2
        rcases List.mem_cons.mp he2 with rfl | he3
        · exact hb1
        · exact hb e he3
    | some e =>
      exfalso
      simp [bindEntries, hrb] at h

theorem instDev_false_components (toolGen : String → Option ParseRes) (rp : String → String)
    (path : String) (c : Ckt) (store : FileStore) :
    instantiate_devices toolGen rp path c false store
      = ({ c with devs := rebindTree (rp path) c.devs },
         genInto toolGen (primNamesT c.devs) store,
         [Ev.genDevices c.name]) := rfl

theorem instCirc_trace_aux (toolGen : String → Option ParseRes) (rp : String → String)
    (path : String) :
    ∀ (l : List (Int × Ckt)) (s : FileStore) (tr : List Ev),
      (l.foldl (fun acc e =>
          let r := instantiate_devices toolGen rp path e.2 false acc.1
          (r.2.1, acc.2 ++ r.2.2)) (s, tr)).2
        = tr ++ l.map (fun e => Ev.genDevices e.2.name)
  | [], s, tr => by simp
  | e :: es, s, tr => by
    rw [List.foldl_cons, List.map_cons]
    have h := instCirc_trace_aux toolGen rp path es
        (genInto toolGen (primNamesT e.2.devs) s) (tr ++ [Ev.genDevices e.2.name])
    exact h.trans (by simp)

theorem filter_sessionClean_map_gen :
    ∀ l : List (Int × Ckt),
      (l.map (fun e => Ev.genDevices e.2.name)).filter isSessionClean = []
  | [] => rfl
  | e :: es => by
    simp only [List.map_cons, List.filter_cons]
    rw [filter_sessionClean_map_gen es]
    rfl

theorem filter_fsRemove_map_gen :
    ∀ l : List (Int × Ckt),
      (l.map (fun e => Ev.genDevices e.2.name)).filter isFsRemove = []
  | [] => rfl
  | e :: es => by
    simp only [List.map_cons, List.filter_cons]
    rw [filter_fsRemove_map_gen es]
    rfl

/-- Last element of a list, with a default for the empty list. -/
def lastD : List α → α → α
  | [], d => d
  | [a], _ => a
  | _ :: b :: t, d => lastD (b :: t) d

theorem lastD_mem : ∀ (l : List α) (d : α), l ≠ [] → lastD l d ∈ l
  | [], _, h => absurd rfl h
  | [a], d, _ => by simp [lastD]
  | a :: b :: t, d, _ => by
    rw [lastD]
    exact List.mem_cons_of_mem a (lastD_mem (b :: t) d (by simp))

theorem lastD_key_le (key : α → Int) (d : α) :
    ∀ l : List α, List.Pairwise (fun a b => key b ≤ key a) l →
      ∀ x ∈ l, key (lastD l d) ≤ key x
  | [], _, x, hx => by simp at hx
  | [a], _, x, hx => by
    rcases List.mem_cons.mp hx with rfl | hx2
    · simp [lastD]
    · simp at hx2
  | a :: b :: t, hp, x, hx => by
    rw [lastD]
    rcases List.mem_cons.mp hx with rfl | hx2
    · exact (List.pairwise_cons.mp hp).1 _ (lastD_mem (b :: t) d (by simp))
    · exact lastD_key_le key d (b :: t) (List.pairwise_cons.mp hp).2 x hx2

theorem foldl_eq_lastD (f : β → α → β) :
    ∀ (l : List α) (d : α), l ≠ [] → ∀ st : β, ∃ st2 : β, l.foldl f st = f st2 (lastD l d)
  | [], _, h => absurd rfl h
  | [a], d, _ => fun st => ⟨st, rfl⟩
  | a :: b :: t, d, _ => fun st => by
    rw [lastD, List.foldl_cons]
    exact foldl_eq_lastD f (b :: t) d (by simp) (f st a)

/-- The optionally-bound cell of every device of one device map, in
order (primitive devices and SubDevice handles alike). -/
def treeCells : DTree → List (Option Cell)
  | .nil => []
  | .prim d r => d.cell :: treeCells r
  | .sub _ sd _ r => sd.cell :: treeCells r

/-- The name of every device of one device map, in order. -/
def treeNames : DTree → List String
  | .nil => []
  | .prim d r => d.name :: treeNames r
  | .sub _ sd _ r => sd.name :: treeNames r

/-- The embedded sub-circuits (circuit name and body) of one device
map, in order. -/
def treeBodies : DTree → List (String × DTree)
  | .nil => []
  | .prim _ r => treeBodies r
  | .sub sn _ body r => (sn, body) :: treeBodies r

theorem rebindTree_char (ap : String) :
    ∀ dt : DTree,
      treeCells (rebindTree ap dt)
          = (treeCells dt).map (Option.map (fun c => c.add_path ap)) ∧
      treeNames (rebindTree ap dt) = treeNames dt ∧
      treeBodies (rebindTree ap dt) = treeBodies dt
  | .nil => by simp [rebindTree, treeCells, treeNames, treeBodies]
  | .prim d r => by
    obtain ⟨hc, hn, hb⟩ := rebindTree_char ap r
    simp [rebindTree, treeCells, treeNames, treeBodies, hc, hn, hb]
  | .sub sn sd body r => by
    obtain ⟨hc, hn, hb⟩ := rebindTree_char ap r
    simp [rebindTree, treeCells, treeNames, treeBodies, hc, hn, hb]

/-- A one-primitive-device test circuit, mirroring a top circuit with a
single device M1. -/
def circ1 : Ckt :=
  { name := "DiffAmp", subDev := none,
    devs := .prim { name := "M1", cell := none } .nil }

/-- A tool session that produces no artifact for any generation
command (a possible behaviour of the external tool). -/
def badGen : String → Option ParseRes := fun _ => none

/-- A tool session that produces a well-formed artifact for every
generation command. -/
def goodGen : String → Option ParseRes := fun _ => some (.ok ["metal1"])

/-- A sample path-resolution function standing for os.path.realpath. -/
def rp0 : String → String := fun s => "/work/" ++ s

/-- A store holding a well-formed artifact for M1. -/
def storeOk : FileStore := [("M1", .ok ["metal1"])]

/-- A store holding a malformed artifact for M1 (present but
unparsable). -/
def storeBad : FileStore := [("M1", .bad "malformed header")]

/-- Claim C6: generate_cell raises the artifact-not-found error exactly
when no artifact file named name.mag exists at the given path; on
success it performs no generation (it consumes the store and returns
none) and returns a Cell carrying the layer set parsed from that file,
bound to the resolved absolute storage path. -/
theorem C6_generate_cell_lookup (rp : String → String) (store : FileStore)
    (name path : String) :
    ((∃ m, generate_cell rp store name path = .err (.fileNotFound m)) ↔
        lookupFile store name = none) ∧
    (∀ ls, lookupFile store name = some (.ok ls) →
        generate_cell rp store name path
          = .ok { name := name, layers := ls, paths := [rp path],
                  center := (0, 0), rotation := 0, childPositions := [] }) := by
  constructor
  · constructor
    · rintro ⟨m, hm⟩
      cases hlf : lookupFile store name with
      | none => rfl
      | some pr =>
        cases pr with
        | ok ls => simp [generate_cell, hlf] at hm
        | bad s => simp [generate_cell, hlf] at hm
    · intro hlf
      exact ⟨"Magic-view of cell " ++ name ++ " not found in " ++ path,
             by simp [generate_cell, hlf]⟩
  · intro ls hlf
    simp [generate_cell, hlf, Cell.add_path]

/-- Witness for C6 at concrete inputs: on the empty store the lookup
fails with the artifact-not-found error, and on a store holding M1 it
returns the parsed cell bound to the resolved path. -/
theorem C6_generate_cell_lookup_witness :
    (∃ m, generate_cell rp0 [] "M1" "Magic/Devices" = .err (.fileNotFound m)) ∧
    generate_cell rp0 storeOk "M1" "Magic/Devices"
      = .ok { name := "M1", layers := ["metal1"], paths := [rp0 "Magic/Devices"],
              center := (0, 0), rotation := 0, childPositions := [] } :=
  ⟨(C6_generate_cell_lookup rp0 [] "M1" "Magic/Devices").1.mpr rfl,
   (C6_generate_cell_lookup rp0 storeOk "M1" "Magic/Devices").2 ["metal1"] rfl⟩

/-- Claim C7: after instantiate_devices submits the generation
commands, every device of the circuit that already owns a Cell has the
resolved absolute storage path appended to that cell's provenance
paths (so the freshest binding is the resolved absolute path, not a
relative or stale one); devices without a Cell keep none (the map of
the option preserves it), and device names, embedded sub-circuit
bodies, the circuit's name and its own macro handle are unchanged. -/
theorem C7_instantiate_devices_rebinds (toolGen : String → Option ParseRes)
    (rp : String → String) (path : String) (c : Ckt) (del_path : Bool)
    (store : FileStore) :
    ((instantiate_devices toolGen rp path c del_path store).1).name = c.name ∧
    ((instantiate_devices toolGen rp path c del_path store).1).subDev = c.subDev ∧
    treeCells ((instantiate_devices toolGen rp path c del_path store).1).devs
      = (treeCells c.devs).map (Option.map (fun cl => cl.add_path (rp path))) ∧
    treeNames ((instantiate_devices toolGen rp path c del_path store).1).devs
      = treeNames c.devs ∧
    treeBodies ((instantiate_devices toolGen rp path c del_path store).1).devs
      = treeBodies c.devs := by
  obtain ⟨hc, hn, hb⟩ := rebindTree_char (rp path) c.devs
  exact ⟨rfl, rfl, hc, hn, hb⟩

/-- Claim C5: instantiate_circuit computes the top-down topology, sorts
it ascending by layer, pre-cleans the artifact directory exactly once
before the loop through the tool session (one session delete event,
ahead of every generation event, and no filesystem tree removal
anywhere), and invokes the Device Instantiator once per topology entry
with the delete-path flag false, so no entry in the loop re-cleans the
shared directory; the result does not depend on the incoming directory
contents. -/
theorem C5_hierarchy_instantiator (toolGen : String → Option ParseRes)
    (rp : String → String) (path : String) (circ : Ckt) (store : FileStore) :
    (instantiate_circuit toolGen rp path circ store).2
        = [Ev.chdir path, Ev.sessionDeleteMags]
          ++ (sortAscBy (fun e => e.1) (get_top_down_topology circ)).map
               (fun e => Ev.genDevices e.2.name) ∧
    ((instantiate_circuit toolGen rp path circ store).2).filter isSessionClean
        = [Ev.sessionDeleteMags] ∧
    ((instantiate_circuit toolGen rp path circ store).2).filter isFsRemove = [] ∧
    List.Pairwise (fun a b => a.1 ≤ b.1)
      (sortAscBy (fun e => e.1) (get_top_down_topology circ)) ∧
    instantiate_circuit toolGen rp path circ store
        = instantiate_circuit toolGen rp path circ [] := by
  have htr : (instantiate_circuit toolGen rp path circ store).2
      = [Ev.chdir path, Ev.sessionDeleteMags]
        ++ (sortAscBy (fun e => e.1) (get_top_down_topology circ)).map
             (fun e => Ev.genDevices e.2.name) :=
    instCirc_trace_aux toolGen rp path _ [] [Ev.chdir path, Ev.sessionDeleteMags]
  refine ⟨htr, ?_, ?_, pairwise_sortAscBy _ _, rfl⟩
  · rw [htr, List.filter_append, filter_sessionClean_map_gen]
    simp [isSessionClean]
  · rw [htr, List.filter_append, filter_fsRemove_map_gen]
    simp [isFsRemove]

/-- Witness for C5 at a concrete hierarchy: the trace of the Hierarchy
Instantiator on the test circuit holds exactly one session pre-clean. -/
theorem C5_hierarchy_instantiator_witness :
    ((instantiate_circuit goodGen rp0 "Magic/Devices" circ1 storeOk).2).filter isSessionClean
      = [Ev.sessionDeleteMags] :=
  (C5_hierarchy_instantiator goodGen rp0 "Magic/Devices" circ1 storeOk).2.1

/-- Claim C2: place_circuit never reads its clean-path argument; every
call moves the session into the target directory, deletes all existing
mag files there through the session and only then executes the
placement batch, so the directory afterwards holds exactly the newly
placed file whatever it held before; consequently
place_circuit_hierachical, although it passes the clean-path flag false
to every layer, ends with only the final (root) placement's file in the
shared directory - each layer's placement has cleared the files placed
by the earlier, lower layers. -/
theorem C2_place_circuit_clears :
    (∀ (n : String) (c : Ckt) (path : String) (b1 b2 : Bool) (st : PlaceSt),
        place_circuit n c path b1 st = place_circuit n c path b2 st) ∧
    (∀ (n : String) (c : Ckt) (path : String) (b : Bool) (st : PlaceSt),
        (place_circuit n c path b st).dir = [n ++ ".mag"] ∧
        (place_circuit n c path b st).trace
          = st.trace ++ [Ev.chdir path, Ev.sessionDeleteMags, Ev.placeCmds n]) ∧
    (∀ (rp : String → String) (topName path : String) (circuit : Ckt) (st : PlaceSt),
        circuit.subDev = none →
        (place_circuit_hierachical rp topName path circuit false st).dir
          = [topName ++ ".mag"]) := by
  refine ⟨fun _ _ _ _ _ _ => rfl,
          fun n c path b st => ⟨rfl, by simp [place_circuit]⟩, ?_⟩
  intro rp topName path circuit st hroot
  have hmem0 : ((0 : Int), circuit)
      ∈ sortDescBy (fun e : Int × Ckt => e.1) (get_bottom_up_topology circuit) := by
    rw [mem_sortDescBy, get_bottom_up_topology, topoOf]
    exact List.mem_cons_self _ _
  have hne : sortDescBy (fun e : Int × Ckt => e.1) (get_bottom_up_topology circuit) ≠ [] :=
    List.ne_nil_of_mem hmem0
  have hkey : (lastD (sortDescBy (fun e : Int × Ckt => e.1)
      (get_bottom_up_topology circuit)) ((0 : Int), circuit)).1 ≤ 0 :=
    lastD_key_le (fun e : Int × Ckt => e.1) _ _ (pairwise_sortDescBy _ _) _ hmem0
  have hin : lastD (sortDescBy (fun e : Int × Ckt => e.1)
      (get_bottom_up_topology circuit)) ((0 : Int), circuit)
      ∈ get_bottom_up_topology circuit := by
    rw [← mem_sortDescBy (fun e : Int × Ckt => e.1)]
    exact lastD_mem _ ((0 : Int), circuit) hne
  have hlast : lastD (sortDescBy (fun e : Int × Ckt => e.1)
      (get_bottom_up_topology circuit)) ((0 : Int), circuit) = ((0 : Int), circuit) := by
    have hin2 : lastD (sortDescBy (fun e : Int × Ckt => e.1)
        (get_bottom_up_topology circuit)) ((0 : Int), circuit)
        ∈ ((0 : Int), circuit) :: topoDevs (0 + 1) circuit.devs := hin
    rcases List.mem_cons.mp hin2 with heq | htail
    · exact heq
    · exfalso
      have h1 := topoDevs_layer_le circuit.devs (0 + 1) _ htail
      omega
  obtain ⟨st2, hfold⟩ := foldl_eq_lastD
      (fun st (e : Int × Ckt) => (hierStepFull rp topName path e.2 st).2)
      (sortDescBy (fun e : Int × Ckt => e.1) (get_bottom_up_topology circuit))
      ((0 : Int), circuit) hne st
  have hdef : place_circuit_hierachical rp topName path circuit false st
      = (sortDescBy (fun e : Int × Ckt => e.1) (get_bottom_up_topology circuit)).foldl
          (fun st e => (hierStepFull rp topName path e.2 st).2) st := rfl
  rw [hdef, hfold, hlast]
  simp [hierStepFull, hroot, place_circuit]

/-- Witness for C2 at a concrete hierarchy: the hierarchical placement
of the test circuit ends with exactly the top cell's file in the
directory. -/
theorem C2_place_circuit_clears_witness :
    (place_circuit_hierachical rp0 "top" "Magic/Placement" circ1 false ⟨[], []⟩).dir
      = ["top" ++ ".mag"] :=
  C2_place_circuit_clears.2.2 rp0 "top" "Magic/Placement" circ1 ⟨[], []⟩ rfl

/-- A sample macro cell with nontrivial geometry, owned by a sample
macro device handle. -/
def mcEx : Cell :=
  { name := "macroA", layers := ["met1"], paths := ["/old/Devices"],
    center := (3, 4), rotation := 1, childPositions := [(1, 2), (5, 6)] }

/-- A sample macro device handle owning mcEx. -/
def sdEx : SubDev := { name := "XDiff", cell := some mcEx }

/-- Claim C3: processing a composite entry normalizes only the deep-copy
snapshot (translate to origin, de-rotate, align bounds, in that order,
inside normalizeMacro); the original composite keeps its name, its
devices and its macro cell's whole geometry (center, rotation, child
positions, layers, name), and the only mutation of the original is the
rebinding of the macro cell's provenance path to the resolved placement
directory; the snapshot is placed under the macro device's name with
the usual session command order. -/
theorem C3_snapshot_frame (rp : String → String) (topName path : String)
    (n : String) (ds : DTree) (sd : SubDev) (mc : Cell) (st : PlaceSt)
    (hc : sd.cell = some mc) :
    (hierStepFull rp topName path ⟨n, some sd, ds⟩ st).1
        = ⟨n, some { sd with cell := some (mc.add_path (rp path)) }, ds⟩ ∧
    (mc.add_path (rp path)).center = mc.center ∧
    (mc.add_path (rp path)).rotation = mc.rotation ∧
    (mc.add_path (rp path)).childPositions = mc.childPositions ∧
    (mc.add_path (rp path)).layers = mc.layers ∧
    (mc.add_path (rp path)).name = mc.name ∧
    (mc.add_path (rp path)).paths = mc.paths ++ [rp path] ∧
    (hierStepFull rp topName path ⟨n, some sd, ds⟩ st).2.trace
        = st.trace ++ [Ev.chdir path, Ev.sessionDeleteMags, Ev.placeCmds sd.name] := by
  refine ⟨?_, rfl, rfl, rfl, rfl, rfl, rfl, ?_⟩
  · simp [hierStepFull, hc]
  · simp [hierStepFull, hc, place_circuit]

/-- Witness for C3 at concrete inputs: the original composite comes out
with only the provenance path of its macro cell extended. -/
theorem C3_snapshot_frame_witness :
    (hierStepFull rp0 "top" "Magic/Placement" ⟨"ampCkt", some sdEx, DTree.nil⟩
        ⟨[], []⟩).1
      = ⟨"ampCkt", some { sdEx with cell := some (mcEx.add_path (rp0 "Magic/Placement")) },
         DTree.nil⟩ :=
  (C3_snapshot_frame rp0 "top" "Magic/Placement" "ampCkt" DTree.nil sdEx mcEx
      ⟨[], []⟩ rfl).1

theorem qturns_zero (p : Int × Int) : qturns 0 p = p := rfl

/-- Claim C10: the composite normalization sequence is idempotent - on a
macro cell that is already normalized (center at the origin, rotation
zero, bounding box aligned at the origin) the center-to-origin
translation, the de-rotation by the negated current rotation and the
bounds alignment each leave the cell, including its child-cell
positions, unchanged. -/
theorem C10_normalize_idempotent (mc : Cell) (hc : mc.center = (0, 0))
    (hr : mc.rotation = 0) (hb : boundMin mc = (0, 0)) :
    normalizeMacro mc = mc := by
  have hmap1 : mc.childPositions.map (fun q => ptAdd q (ptSub (0, 0) mc.center))
      = mc.childPositions := by
    apply listMapEqSelf
    intro a _
    rw [hc]
    cases a
    simp [ptAdd, ptSub]
  have h1 : mc.move_center (0, 0) = mc := by
    simp only [Cell.move_center, hmap1]
    rw [← hc]
  have hmap2 : mc.childPositions.map
      (fun q => ptAdd mc.center (qturns (-(mc.rotation)) (ptSub q mc.center)))
      = mc.childPositions := by
    apply listMapEqSelf
    intro a _
    rw [hc, hr]
    rw [show (-(0 : Int)) = 0 from rfl, qturns_zero]
    cases a
    simp [ptAdd, ptSub]
  have hrot : mc.rotation + -(mc.rotation) = mc.rotation := by simp [hr]
  have h2 : mc.rotate_center (-(mc.rotation)) = mc := by
    simp only [Cell.rotate_center, hmap2, hrot]
  have hmap3 : mc.childPositions.map (fun q => ptSub q (boundMin mc))
      = mc.childPositions := by
    apply listMapEqSelf
    intro a _
    rw [hb]
    cases a
    simp [ptSub]
  have h3 : mc.move_cells_to_bound = mc := by
    simp only [Cell.move_cells_to_bound, hmap3]
  simp only [normalizeMacro]
  rw [h1, h2]
  exact h3

/-- A sample macro cell that is already normalized. -/
def mcNorm : Cell :=
  { name := "macroA", layers := ["met1"], paths := [],
    center := (0, 0), rotation := 0, childPositions := [(0, 1), (2, 0)] }

/-- Witness for C10 at a concrete normalized cell. -/
theorem C10_normalize_idempotent_witness : normalizeMacro mcNorm = mcNorm :=
  C10_normalize_idempotent mcNorm rfl rfl (by decide)

/-- Claim C8: on its successful (non-healing) path, the add_cells bind
pass processes the topology entries in ascending layer order and
attaches the looked-up Cell to every primitive (non-SubDevice) device
of every circuit in the topology (matching the spec-side bindTreeOk
description, with every primitive bound); SubDevice entries are skipped
and the lookup sequence holds exactly the primitive device names - no
cache lookup for macro devices. -/
theorem C8_bind_success (rp : String → String) (store : FileStore)
    (path : String) (circ : Ckt) :
    List.Pairwise (fun a b => a.1 ≤ b.1)
      (sortAscBy (fun e => e.1) (get_top_down_topology circ)) ∧
    ((bindEntries rp store path
        (sortAscBy (fun e => e.1) (get_top_down_topology circ))).err = none →
      (bindEntries rp store path
          (sortAscBy (fun e => e.1) (get_top_down_topology circ))).entries
        = (sortAscBy (fun e => e.1) (get_top_down_topology circ)).map
            (fun e => (e.1, { e.2 with devs := bindTreeOk rp store path e.2.devs })) ∧
      (bindEntries rp store path
          (sortAscBy (fun e => e.1) (get_top_down_topology circ))).lookups
        = (sortAscBy (fun e => e.1) (get_top_down_topology circ)).flatMap
            (fun e => primNamesT e.2.devs) ∧
      ∀ e ∈ (bindEntries rp store path
          (sortAscBy (fun e => e.1) (get_top_down_topology circ))).entries,
        allPrimsBound e.2.devs = true) :=
  ⟨pairwise_sortAscBy _ _, bindEntries_ok rp store path _⟩

/-- Witness for C8 at a concrete hierarchy and store: the successful
pass looks up exactly the primitive device M1. -/
theorem C8_bind_success_witness :
    (bindEntries rp0 storeOk "Magic/Devices"
        (sortAscBy (fun e => e.1) (get_top_down_topology circ1))).lookups = ["M1"] :=
  (((C8_bind_success rp0 storeOk "Magic/Devices" circ1).2 (by decide)).2.1).trans
    (by decide)

/-- Claim C9: during cell binding, any failure other than the
locally-healed artifact-not-found error terminates the enclosing
workflow with the non-zero exit status 1 after printing a report naming
the circuit; the run ends in the exit outcome, so no partial-success
continuation exists.  The statement covers every round: each recursive
round is an add_cells run on the current store, and whenever its pass
raises an other-than-not-found error the run exits. -/
theorem C9_other_failures_fatal (toolGen : String → Option ParseRes)
    (rp : String → String) (path : String) (fuel : Nat) (circ : Ckt)
    (store : FileStore) (m : String)
    (h : (bindEntries rp store path
        (sortAscBy (fun e => e.1) (get_top_down_topology circ))).err
        = some (.other m)) :
    (add_cells toolGen rp path (fuel + 1) circ store).out = .exit 1 ∧
    Ev.msg (msgAddFailed circ.name)
      ∈ (add_cells toolGen rp path (fuel + 1) circ store).trace ∧
    (1 : Nat) ≠ 0 := by
  refine ⟨?_, ?_, one_ne_zero⟩ <;> simp [add_cells, h]

/-- Witness for C9 at a concrete malformed store: add_cells exits with
status 1 and reports the circuit. -/
theorem C9_other_failures_fatal_witness :
    (add_cells goodGen rp0 "Magic/Devices" 3 circ1 storeBad).out = ACOut.exit 1 ∧
    Ev.msg (msgAddFailed circ1.name)
      ∈ (add_cells goodGen rp0 "Magic/Devices" 3 circ1 storeBad).trace ∧
    (1 : Nat) ≠ 0 :=
  C9_other_failures_fatal goodGen rp0 "Magic/Devices" 2 circ1 storeBad
    "malformed header" (by decide)

/-- Counterexample to claim C1: with a tool session that produces no
artifacts (a possible behaviour of the external collaborator the claim
quantifies over), add_cells on the one-device hierarchy runs a bind
pass, heals, and recurses at every fuel step: within five fuel steps it
performs five lookup rounds and five Hierarchy Instantiator
invocations and is still recursing rather than stopping fatally.  This
contradicts the claim that the instantiator is invoked once, that the
pass is re-run exactly once more, that a second artifact-not-found
failure is fatal, and that no third lookup round or further recursion
occurs. -/
theorem C1_counterexample :
    (add_cells badGen rp0 "Magic/Devices" 5 circ1 []).rounds = 5 ∧
    (add_cells badGen rp0 "Magic/Devices" 5 circ1 []).heals = 5 ∧
    (add_cells badGen rp0 "Magic/Devices" 5 circ1 []).out = ACOut.spin := by
  refine ⟨?_, ?_, ?_⟩ <;> rfl

/-- Claim C1 as amended: when a bind pass fails with the
artifact-not-found error, add_cells invokes the Hierarchy Instantiator
and recursively re-runs itself on the regenerated store; the healing is
not bounded to a single attempt - it recurses again whenever the error
repeats - but whenever the one regeneration suffices (the pass over the
regenerated store succeeds), exactly one instantiation and exactly two
lookup rounds occur and the run returns normally. -/
theorem C1_amended_single_heal (toolGen : String → Option ParseRes)
    (rp : String → String) (path : String) (circ : Ckt) (store : FileStore)
    (fuel : Nat) (m : String)
    (h1 : (bindEntries rp store path
        (sortAscBy (fun e => e.1) (get_top_down_topology circ))).err
        = some (.fileNotFound m))
    (h2 : (bindEntries rp (instantiate_circuit toolGen rp path circ store).1 path
        (sortAscBy (fun e => e.1) (get_top_down_topology circ))).err = none) :
    (add_cells toolGen rp path (fuel + 2) circ store).out = ACOut.ok ∧
    (add_cells toolGen rp path (fuel + 2) circ store).rounds = 2 ∧
    (add_cells toolGen rp path (fuel + 2) circ store).heals = 1 := by
  have h3 : add_cells toolGen rp path (fuel + 2) circ store
      = add_cells toolGen rp path (Nat.succ (Nat.succ fuel)) circ store := rfl
  refine ⟨?_, ?_, ?_⟩ <;>
    · rw [h3]
      simp [add_cells, h1, h2]

/-- Witness for C1 as amended, at a concrete hierarchy with a tool
session whose one regeneration supplies the artifact: two lookup
rounds, one heal, normal return. -/
theorem C1_amended_single_heal_witness :
    (add_cells goodGen rp0 "Magic/Devices" 5 circ1 []).out = ACOut.ok ∧
    (add_cells goodGen rp0 "Magic/Devices" 5 circ1 []).rounds = 2 ∧
    (add_cells goodGen rp0 "Magic/Devices" 5 circ1 []).heals = 1 :=
  C1_amended_single_heal goodGen rp0 "Magic/Devices" circ1 [] 3
    "Magic-view of cell M1 not found in Magic/Devices" (by decide) (by decide)

/-- A leaf SubCircuit with one primitive device, embedded in rootH. -/
def leafCkt : Ckt :=
  { name := "leafL", subDev := some { name := "XL", cell := none },
    devs := .prim { name := "M2", cell := none } .nil }

/-- A two-level hierarchy: a plain root embedding leafCkt through a
macro device. -/
def rootH : Ckt :=
  { name := "top", subDev := none,
    devs := .sub "leafL" { name := "XL", cell := none }
        (.prim { name := "M2", cell := none } .nil) .nil }

/-- Claim C4: place_circuit_hierachical consumes the bottom-up topology
sorted in descending layer order (the consumed list is pairwise
descending); every circuit directly embedded in a topology entry occurs
in the topology one layer deeper than its embedder, and any entry with
a strictly larger layer is consumed strictly earlier - hence every
embedded circuit, in particular every leaf, is placed before any
composite that embeds it. -/
theorem C4_leaves_before_composites (root : Ckt) :
    List.Pairwise (fun a b => b.1 ≤ a.1)
      (sortDescBy (fun e : Int × Ckt => e.1) (get_bottom_up_topology root)) ∧
    (∀ (t : Int) (c : Ckt), (t, c) ∈ get_bottom_up_topology root →
        ∀ s ∈ directSubs c, (t + 1, s) ∈ get_bottom_up_topology root) ∧
    (∀ (i j : Nat)
        (hi : i < (sortDescBy (fun e : Int × Ckt => e.1)
            (get_bottom_up_topology root)).length)
        (hj : j < (sortDescBy (fun e : Int × Ckt => e.1)
            (get_bottom_up_topology root)).length),
        ((sortDescBy (fun e : Int × Ckt => e.1)
            (get_bottom_up_topology root)).get ⟨i, hi⟩).1
          < ((sortDescBy (fun e : Int × Ckt => e.1)
            (get_bottom_up_topology root)).get ⟨j, hj⟩).1
        → j < i) := by
  refine ⟨pairwise_sortDescBy _ _, topoOf_subs_mem root, ?_⟩
  intro i j hi hj hlt
  by_contra hji
  have hij : i ≤ j := Nat.not_lt.mp hji
  rcases Nat.lt_or_eq_of_le hij with hlt2 | heq
  · have hp := pairwise_sortDescBy (fun e : Int × Ckt => e.1) (get_bottom_up_topology root)
    have hle := List.pairwise_iff_get.mp hp ⟨i, hi⟩ ⟨j, hj⟩ hlt2
    omega
  · subst heq
    exact absurd hlt (lt_irrefl _)

/-- Witness for C4 at the two-level hierarchy: the embedded leaf occurs
one layer deeper, and an entry of larger layer (the leaf, at index 0
after the descending sort) is consumed before the root entry (index
1). -/
theorem C4_leaves_before_composites_witness :
    (((0 : Int) + 1, leafCkt) ∈ get_bottom_up_topology rootH) ∧ (0 : Nat) < 1 :=
  ⟨(C4_leaves_before_composites rootH).2.1 0 rootH (List.mem_cons_self _ _)
      leafCkt (List.mem_cons_self _ _),
   (C4_leaves_before_composites rootH).2.2 1 0 (by decide) (by decide) (by decide)⟩

end IICRALF
